import Mathlib

set_option maxHeartbeats 1000000
set_option maxRecDepth 8000

/-!
Shallow embedding of the dsrvlabs/wallet-adaptor repository.

The embedding covers:
* the cache-key construction and the promise-memoizing `getMnemonic` of
  `AwsMnemonicProvider` (src/unnamed/part_001, cached variant);
* the secret reconstruction in `getEncryptedMnemonicFromSecretsManager`
  together with a JSON subset parser and the relevant fragment of
  JavaScript `+` semantics;
* the Ethereum adapter `generateAddress` variants (structured params from
  src/unnamed/part_004, and the compiled hdpath variant from
  src/packages/wallet-eth/dist/eth-wallet.adapter.d.ts) and
  `signTransaction` (src/packages/wallet-eth/src/eth-wallet.adapter.ts).

JavaScript strings are modelled as Lean `String`; JS numbers appearing in
the code are integers throughout, modelled as `Int` (or `Nat` for the
non-negative path fields), with template-literal rendering made explicit.
External I/O (AWS Secrets Manager, KMS, ethers key derivation) is passed in
as oracle functions, and a rejected/resolved promise is modelled by its
settled `Except` outcome.
-/

namespace WalletAdaptor

/-! ## Decimal rendering of JS numbers (template literals) -/

/-- Character for one decimal digit, as JS number-to-string rendering emits it. -/
def digitChar (d : Nat) : Char :=
  match d with
  | 0 => '0'
  | 1 => '1'
  | 2 => '2'
  | 3 => '3'
  | 4 => '4'
  | 5 => '5'
  | 6 => '6'
  | 7 => '7'
  | 8 => '8'
  | _ => '9'

/-- Little-endian list of decimal digits of a natural number (empty for 0). -/
def natDigitsLE (n : Nat) : List Nat :=
  if h : n = 0 then [] else (n % 10) :: natDigitsLE (n / 10)
termination_by n
decreasing_by
  exact Nat.div_lt_self (Nat.pos_of_ne_zero h) (by decide)

/-- Decimal rendering of a natural number, exactly as a JS template literal
renders a non-negative integer. -/
def natRender (n : Nat) : String :=
  if n = 0 then "0" else String.mk (((natDigitsLE n).map digitChar).reverse)

/-- Decimal rendering of a JS integer; negative numbers get a leading minus sign. -/
def intRender (i : Int) : String :=
  if i < 0 then "-" ++ natRender i.natAbs else natRender i.toNat

/-- Value of a little-endian digit list. -/
def digitsVal (l : List Nat) : Nat :=
  match l with
  | [] => 0
  | d :: ds => d + 10 * digitsVal ds

theorem digitsVal_natDigitsLE (n : Nat) : digitsVal (natDigitsLE n) = n := by
  induction n using Nat.strong_induction_on with
  | _ n ih =>
    rw [natDigitsLE]
    split
    · simp [digitsVal]
      omega
    next h =>
      have hd : n / 10 < n := Nat.div_lt_self (Nat.pos_of_ne_zero h) (by decide)
      simp [digitsVal, ih _ hd]
      omega

theorem natDigitsLE_lt (n : Nat) : ∀ d ∈ natDigitsLE n, d < 10 := by
  induction n using Nat.strong_induction_on with
  | _ n ih =>
    rw [natDigitsLE]
    split
    · simp
    next h =>
      have hd : n / 10 < n := Nat.div_lt_self (Nat.pos_of_ne_zero h) (by decide)
      intro d hdm
      rcases List.mem_cons.mp hdm with h1 | h2
      · subst h1
        exact Nat.mod_lt _ (by decide)
      · exact ih _ hd d h2

theorem digitChar_injOn : ∀ a, a < 10 → ∀ b, b < 10 → digitChar a = digitChar b → a = b := by
  decide

theorem digitChar_ne_underscore (d : Nat) : digitChar d ≠ '_' := by
  unfold digitChar
  split <;> decide

theorem digitChar_ne_minus (d : Nat) : digitChar d ≠ '-' := by
  unfold digitChar
  split <;> decide

theorem map_digitChar_inj (l1 : List Nat) :
    ∀ l2, (∀ d ∈ l1, d < 10) → (∀ d ∈ l2, d < 10) →
      l1.map digitChar = l2.map digitChar → l1 = l2 := by
  induction l1 with
  | nil =>
    intro l2 _ _ h
    cases l2 with
    | nil => rfl
    | cons b t2 => simp at h
  | cons a t ih =>
    intro l2 h1 h2 h
    cases l2 with
    | nil => simp at h
    | cons b t2 =>
      simp only [List.map_cons, List.cons.injEq] at h
      have hab : a = b :=
        digitChar_injOn a (h1 a (by simp)) b (h2 b (by simp)) h.1
      have ht : t = t2 :=
        ih t2 (fun d hd => h1 d (by simp [hd])) (fun d hd => h2 d (by simp [hd])) h.2
      rw [hab, ht]

theorem string_eq_of_data {s t : String} (h : s.data = t.data) : s = t := by
  cases s
  cases t
  exact congrArg String.mk h

theorem data_append (a b : String) : (a ++ b).data = a.data ++ b.data := by
  cases a
  cases b
  rfl

theorem natRender_inj (m n : Nat) (h : natRender m = natRender n) : m = n := by
  unfold natRender at h
  by_cases hm : m = 0 <;> by_cases hn : n = 0
  · omega
  · rw [if_pos hm, if_neg hn] at h
    have hdata : ("0" : String).data = (((natDigitsLE n).map digitChar).reverse) := by
      have := congrArg String.data h
      simpa using this
    have hmap : (natDigitsLE n).map digitChar = ['0'] := by
      have : (((natDigitsLE n).map digitChar).reverse) = ['0'] := hdata.symm
      have h2 := congrArg List.reverse this
      simpa using h2
    have hzero : natDigitsLE n = [0] :=
      map_digitChar_inj (natDigitsLE n) [0] (natDigitsLE_lt n) (by simp) (by simpa using hmap)
    have := digitsVal_natDigitsLE n
    rw [hzero] at this
    simp [digitsVal] at this
    omega
  · rw [if_neg hm, if_pos hn] at h
    have hdata : (((natDigitsLE m).map digitChar).reverse) = ("0" : String).data := by
      have := congrArg String.data h
      simpa using this
    have hmap : (natDigitsLE m).map digitChar = ['0'] := by
      have h2 := congrArg List.reverse hdata
      simpa using h2
    have hzero : natDigitsLE m = [0] :=
      map_digitChar_inj (natDigitsLE m) [0] (natDigitsLE_lt m) (by simp) (by simpa using hmap)
    have := digitsVal_natDigitsLE m
    rw [hzero] at this
    simp [digitsVal] at this
    omega
  · rw [if_neg hm, if_neg hn] at h
    have hdata := congrArg String.data h
    simp only [String.mk] at hdata
    have hrev : ((natDigitsLE m).map digitChar).reverse = ((natDigitsLE n).map digitChar).reverse := hdata
    have hmap : (natDigitsLE m).map digitChar = (natDigitsLE n).map digitChar := by
      have h2 := congrArg List.reverse hrev
      simpa using h2
    have hdig : natDigitsLE m = natDigitsLE n :=
      map_digitChar_inj _ _ (natDigitsLE_lt m) (natDigitsLE_lt n) hmap
    have h3 := digitsVal_natDigitsLE m
    rw [hdig, digitsVal_natDigitsLE n] at h3
    omega

theorem natRender_chars (n : Nat) : ∀ c ∈ (natRender n).data, ∃ d, c = digitChar d := by
  unfold natRender
  split
  · intro c hc
    simp at hc
    exact ⟨0, by simp [hc, digitChar]⟩
  · intro c hc
    simp only [String.mk] at hc
    rw [List.mem_reverse] at hc
    rcases List.mem_map.mp hc with ⟨d, _, hd⟩
    exact ⟨d, hd.symm⟩

theorem natRender_no_underscore (n : Nat) : '_' ∉ (natRender n).data := by
  intro hmem
  rcases natRender_chars n _ hmem with ⟨d, hd⟩
  exact digitChar_ne_underscore d hd.symm

theorem intRender_no_underscore (i : Int) : '_' ∉ (intRender i).data := by
  unfold intRender
  split
  · rw [data_append]
    intro hmem
    rcases List.mem_append.mp hmem with h1 | h2
    · simp at h1
    · exact natRender_no_underscore _ h2
  · exact natRender_no_underscore _

theorem intRender_inj (i j : Int) (h : intRender i = intRender j) : i = j := by
  unfold intRender at h
  split at h <;> split at h
  · have hdata := congrArg String.data h
    rw [data_append, data_append] at hdata
    simp at hdata
    have := natRender_inj _ _ (string_eq_of_data hdata)
    omega
  · exfalso
    have hdata := congrArg String.data h
    rw [data_append] at hdata
    have hmem : '-' ∈ (natRender j.toNat).data := by
      rw [← hdata]
      simp
    rcases natRender_chars _ _ hmem with ⟨d, hd⟩
    exact digitChar_ne_minus d hd.symm
  · exfalso
    have hdata := congrArg String.data h
    rw [data_append] at hdata
    have hmem : '-' ∈ (natRender i.toNat).data := by
      rw [hdata]
      simp
    rcases natRender_chars _ _ hmem with ⟨d, hd⟩
    exact digitChar_ne_minus d hd.symm
  · have := natRender_inj _ _ h
    omega

/-! ## Identity and cache key

Source: src/unnamed/part_001, `AwsMnemonicProvider.getMnemonic`:
`const cacheKey = ` followed by the template `${ctx.organizationId}_${ctx.chainId}`,
and src/unnamed/part_003, `MnemonicContext`. -/

/-- The (organizationId, chainId) identity from `MnemonicContext`. -/
structure MnemonicContext where
  organizationId : String
  chainId : Int
deriving DecidableEq

/-- Cache key / secret name: organizationId, an underscore, then the decimal
rendering of chainId — the template literal in `getMnemonic`. -/
def cacheKey (ctx : MnemonicContext) : String :=
  ctx.organizationId ++ "_" ++ intRender ctx.chainId

/-- Splitting at a separator character absent from both tails is unambiguous. -/
theorem append_sep_inj (c : Char) (a1 : List Char) :
    ∀ a2 t1 t2 : List Char, a1 ++ c :: t1 = a2 ++ c :: t2 →
      c ∉ t1 → c ∉ t2 → a1 = a2 ∧ t1 = t2 := by
  induction a1 with
  | nil =>
    intro a2 t1 t2 h h1 h2
    cases a2 with
    | nil => simpa using h
    | cons x a2t =>
      exfalso
      simp only [List.nil_append, List.cons_append, List.cons.injEq] at h
      apply h1
      rw [h.2]
      simp [h.1]
  | cons x a1t ih =>
    intro a2 t1 t2 h h1 h2
    cases a2 with
    | nil =>
      exfalso
      simp only [List.nil_append, List.cons_append, List.cons.injEq] at h
      apply h2
      rw [← h.2]
      simp [← h.1]
    | cons y a2t =>
      simp only [List.cons_append, List.cons.injEq] at h
      rcases ih a2t t1 t2 h.2 h1 h2 with ⟨ha, ht⟩
      exact ⟨by rw [h.1, ha], ht⟩

/-- C10. The cache-key/secret-name construction (organizationId, chainId) to
organizationId ++ underscore ++ decimal chainId is injective over all identities
with integer chainId: the decimal rendering of chainId contains no underscore,
so two distinct identities always map to distinct keys, even when
organizationId itself contains underscores or digits. -/
theorem cacheKey_injective (c1 c2 : MnemonicContext) (h : cacheKey c1 = cacheKey c2) :
    c1 = c2 := by
  unfold cacheKey at h
  have hdata := congrArg String.data h
  rw [data_append, data_append, data_append, data_append] at hdata
  have hsep : c1.organizationId.data ++ '_' :: (intRender c1.chainId).data =
      c2.organizationId.data ++ '_' :: (intRender c2.chainId).data := by
    simpa using hdata
  rcases append_sep_inj '_' _ _ _ _ hsep (intRender_no_underscore _)
      (intRender_no_underscore _) with ⟨horg, hr⟩
  have h1 : c1.organizationId = c2.organizationId := string_eq_of_data horg
  have h2 : c1.chainId = c2.chainId := intRender_inj _ _ (string_eq_of_data hr)
  cases c1
  cases c2
  simp_all

theorem cacheKey_injective_witness :
    (⟨"org_1", 23⟩ : MnemonicContext) = (⟨"org_1", 23⟩ : MnemonicContext) :=
  cacheKey_injective ⟨"org_1", 23⟩ ⟨"org_1", 23⟩ rfl

/-! ## The memoizing mnemonic provider

Source: src/unnamed/part_001 (cached variant of `AwsMnemonicProvider`).
The instance field `mnemonicCache : Map<string, Promise<string>>` is modelled
as an association list from keys to the settled outcome of the stored
promise (`FetchResult`); the private `fetchAndDecryptMnemonic` performs
external I/O (Secrets Manager + KMS) and is passed in as an oracle `env`
that may answer differently on each invocation (its first argument is the
number of fetches issued so far).  Each `getMnemonic` call checks and
updates the cache in one synchronous JS event-loop slice — the promise is
created and stored before any `await` runs — so a call is one atomic step
on the provider state.  A rejected promise stays in the map (the source
never deletes entries), which the model reflects by storing `.error`
outcomes like any other. -/

/-- Settled outcome of a `Promise<string>`: resolved value or rejection reason. -/
abbrev FetchResult := Except String String

/-- Mutable state of one `AwsMnemonicProvider` instance: the memoization map
plus the log of keys for which `fetchAndDecryptMnemonic` was invoked
(most recent first). -/
structure ProviderState where
  mnemonicCache : List (String × FetchResult)
  fetchCalls : List String

/-- State of a freshly constructed provider: empty cache, no fetches issued. -/
def initialProviderState : ProviderState := ⟨[], []⟩

/-- `Map.has`/`Map.get` on the association list (keys are inserted at most
once, so first match suffices). -/
def lookupCache (cache : List (String × FetchResult)) (k : String) : Option FetchResult :=
  match cache with
  | [] => none
  | (k2, v) :: rest => if k2 = k then some v else lookupCache rest k

/-- One `getMnemonic(ctx)` call: build the cache key, return the memoized
promise if present, otherwise invoke the fetch, store its promise, and
return it. -/
def getMnemonic (env : Nat → String → FetchResult) (st : ProviderState)
    (ctx : MnemonicContext) : FetchResult × ProviderState :=
  match lookupCache st.mnemonicCache (cacheKey ctx) with
  | some r => (r, st)
  | none =>
    (env st.fetchCalls.length (cacheKey ctx),
      ⟨(cacheKey ctx, env st.fetchCalls.length (cacheKey ctx)) :: st.mnemonicCache,
        cacheKey ctx :: st.fetchCalls⟩)

/-- Provider state after one `getMnemonic` call. -/
def stepState (env : Nat → String → FetchResult) (st : ProviderState)
    (ctx : MnemonicContext) : ProviderState :=
  (getMnemonic env st ctx).2

/-- Provider state after a sequence of `getMnemonic` calls. -/
def runState (env : Nat → String → FetchResult) (st : ProviderState) :
    List MnemonicContext → ProviderState
  | [] => st
  | ctx :: rest => runState env (stepState env st ctx) rest

/-- Results returned by a sequence of `getMnemonic` calls, in call order. -/
def runResults (env : Nat → String → FetchResult) (st : ProviderState) :
    List MnemonicContext → List FetchResult
  | [] => []
  | ctx :: rest => (getMnemonic env st ctx).1 :: runResults env (stepState env st ctx) rest

/-- Default identity used with `List.getD` in run-indexed statements. -/
def defaultCtx : MnemonicContext := ⟨"", 0⟩

/-- Default result used with `List.getD` in run-indexed statements. -/
def defaultResult : FetchResult := Except.error ""

theorem getMnemonic_hit (env : Nat → String → FetchResult) (st : ProviderState)
    (ctx : MnemonicContext) (r : FetchResult)
    (hl : lookupCache st.mnemonicCache (cacheKey ctx) = some r) :
    getMnemonic env st ctx = (r, st) := by
  unfold getMnemonic
  rw [hl]

theorem getMnemonic_miss (env : Nat → String → FetchResult) (st : ProviderState)
    (ctx : MnemonicContext)
    (hl : lookupCache st.mnemonicCache (cacheKey ctx) = none) :
    getMnemonic env st ctx =
      (env st.fetchCalls.length (cacheKey ctx),
        ⟨(cacheKey ctx, env st.fetchCalls.length (cacheKey ctx)) :: st.mnemonicCache,
          cacheKey ctx :: st.fetchCalls⟩) := by
  unfold getMnemonic
  rw [hl]

theorem lookupCache_stepState_mono (env : Nat → String → FetchResult)
    (st : ProviderState) (ctx : MnemonicContext) (k : String) (r : FetchResult)
    (h : lookupCache st.mnemonicCache k = some r) :
    lookupCache (stepState env st ctx).mnemonicCache k = some r := by
  unfold stepState
  cases hl : lookupCache st.mnemonicCache (cacheKey ctx) with
  | some r2 =>
    rw [getMnemonic_hit env st ctx r2 hl]
    exact h
  | none =>
    rw [getMnemonic_miss env st ctx hl]
    have hne : cacheKey ctx ≠ k := by
      intro he
      rw [he, h] at hl
      cases hl
    simp only [lookupCache]
    rw [if_neg hne]
    exact h

theorem lookupCache_runState_mono (env : Nat → String → FetchResult)
    (ctxs : List MnemonicContext) :
    ∀ (st : ProviderState) (k : String) (r : FetchResult),
      lookupCache st.mnemonicCache k = some r →
      lookupCache (runState env st ctxs).mnemonicCache k = some r := by
  induction ctxs with
  | nil => intro st k r h; exact h
  | cons ctx rest ih =>
    intro st k r h
    exact ih _ k r (lookupCache_stepState_mono env st ctx k r h)

theorem getMnemonic_result_lookup (env : Nat → String → FetchResult)
    (st : ProviderState) (ctx : MnemonicContext) :
    lookupCache (stepState env st ctx).mnemonicCache (cacheKey ctx) =
      some (getMnemonic env st ctx).1 := by
  unfold stepState
  cases hl : lookupCache st.mnemonicCache (cacheKey ctx) with
  | some r =>
    rw [getMnemonic_hit env st ctx r hl]
    exact hl
  | none =>
    rw [getMnemonic_miss env st ctx hl]
    simp [lookupCache]

/-- Every result of a run is the value the final cache holds for its key. -/
theorem runResults_getD_final (env : Nat → String → FetchResult)
    (ctxs : List MnemonicContext) :
    ∀ (st : ProviderState) (i : Nat), i < ctxs.length →
      lookupCache (runState env st ctxs).mnemonicCache
          (cacheKey (ctxs.getD i defaultCtx)) =
        some ((runResults env st ctxs).getD i defaultResult) := by
  induction ctxs with
  | nil =>
    intro st i hi
    simp at hi
  | cons ctx rest ih =>
    intro st i hi
    cases i with
    | zero =>
      simp only [List.getD, List.get?, runResults, runState, Option.getD]
      exact lookupCache_runState_mono env rest _ _ _
        (getMnemonic_result_lookup env st ctx)
    | succ j =>
      have hj : j < rest.length := by simpa using hi
      simpa [runState, runResults] using ih (stepState env st ctx) j hj

/-- Cache/fetch-log coupling invariant: the fetch log has no duplicates and
records exactly the keys present in the cache. -/
def cacheInv (st : ProviderState) : Prop :=
  st.fetchCalls.Nodup ∧
    ∀ k, k ∈ st.fetchCalls ↔ (lookupCache st.mnemonicCache k).isSome

theorem cacheInv_initial : cacheInv initialProviderState := by
  constructor
  · simp [initialProviderState]
  · intro k
    simp [initialProviderState, lookupCache]

theorem cacheInv_stepState (env : Nat → String → FetchResult)
    (st : ProviderState) (ctx : MnemonicContext) (h : cacheInv st) :
    cacheInv (stepState env st ctx) := by
  unfold stepState
  cases hl : lookupCache st.mnemonicCache (cacheKey ctx) with
  | some r =>
    rw [getMnemonic_hit env st ctx r hl]
    exact h
  | none =>
    rw [getMnemonic_miss env st ctx hl]
    rcases h with ⟨hnd, hiff⟩
    constructor
    · simp only [List.nodup_cons]
      refine ⟨?_, hnd⟩
      intro hmem
      have := (hiff _).mp hmem
      rw [hl] at this
      cases this
    · intro k
      simp only [List.mem_cons, lookupCache]
      by_cases hk : cacheKey ctx = k
      · subst hk
        simp
      · rw [if_neg hk, ← hiff k]
        constructor
        · intro hm
          rcases hm with hm | hm
          · exact absurd hm.symm hk
          · exact hm
        · intro hm
          exact Or.inr hm

theorem cacheInv_runState (env : Nat → String → FetchResult)
    (ctxs : List MnemonicContext) :
    ∀ st : ProviderState, cacheInv st → cacheInv (runState env st ctxs) := by
  induction ctxs with
  | nil => intro st h; exact h
  | cons ctx rest ih =>
    intro st h
    exact ih _ (cacheInv_stepState env st ctx h)

theorem fetchCalls_stepState_mem (env : Nat → String → FetchResult)
    (st : ProviderState) (ctx : MnemonicContext) (k : String)
    (h : k ∈ st.fetchCalls) : k ∈ (stepState env st ctx).fetchCalls := by
  unfold stepState
  cases hl : lookupCache st.mnemonicCache (cacheKey ctx) with
  | some r =>
    rw [getMnemonic_hit env st ctx r hl]
    exact h
  | none =>
    rw [getMnemonic_miss env st ctx hl]
    exact List.mem_cons_of_mem _ h

theorem fetchCalls_runState_mem (env : Nat → String → FetchResult)
    (ctxs : List MnemonicContext) :
    ∀ (st : ProviderState) (k : String), k ∈ st.fetchCalls →
      k ∈ (runState env st ctxs).fetchCalls := by
  induction ctxs with
  | nil => intro st k h; exact h
  | cons ctx rest ih =>
    intro st k h
    exact ih _ k (fetchCalls_stepState_mem env st ctx k h)

/-- C1. Across any sequence of `getMnemonic` calls on one provider instance,
the underlying fetch is invoked at most once per cache key, and any two calls
whose identities have the same cache key return the same stored result. -/
theorem getMnemonic_at_most_one_fetch (env : Nat → String → FetchResult)
    (ctxs : List MnemonicContext) :
    (∀ k, ((runState env initialProviderState ctxs).fetchCalls.count k) ≤ 1) ∧
    (∀ i j, i < ctxs.length → j < ctxs.length →
      cacheKey (ctxs.getD i defaultCtx) = cacheKey (ctxs.getD j defaultCtx) →
      (runResults env initialProviderState ctxs).getD i defaultResult =
        (runResults env initialProviderState ctxs).getD j defaultResult) := by
  constructor
  · intro k
    have hinv := cacheInv_runState env ctxs initialProviderState cacheInv_initial
    exact List.nodup_iff_count_le_one.mp hinv.1 k
  · intro i j hi hj hkey
    have h1 := runResults_getD_final env ctxs initialProviderState i hi
    have h2 := runResults_getD_final env ctxs initialProviderState j hj
    rw [hkey, h2] at h1
    exact (Option.some.injEq _ _ ▸ h1).symm

/-- Concrete environment used by cache-model witnesses. -/
def witnessEnv : Nat → String → FetchResult :=
  fun _ k => Except.ok ("seed for " ++ k)

/-- Concrete identity used by cache-model witnesses. -/
def witnessCtx : MnemonicContext := ⟨"org-1234", 1⟩

theorem getMnemonic_at_most_one_fetch_witness :
    ((runState witnessEnv initialProviderState [witnessCtx, witnessCtx]).fetchCalls.count
        (cacheKey witnessCtx) ≤ 1) ∧
    ((runResults witnessEnv initialProviderState [witnessCtx, witnessCtx]).getD 0 defaultResult =
      (runResults witnessEnv initialProviderState [witnessCtx, witnessCtx]).getD 1 defaultResult) :=
  ⟨(getMnemonic_at_most_one_fetch witnessEnv [witnessCtx, witnessCtx]).1 _,
   (getMnemonic_at_most_one_fetch witnessEnv [witnessCtx, witnessCtx]).2 0 1
     (by decide) (by decide) rfl⟩

/-- C9. Once the fetch for an identity has failed, the rejected result stays
memoized: every later call for the same identity returns the same failure and
the fetch for that key is never re-invoked on this provider instance. -/
theorem failed_fetch_memoized (env : Nat → String → FetchResult)
    (ctxs : List MnemonicContext) (ctx : MnemonicContext) (e : String)
    (hfail : (getMnemonic env initialProviderState ctx).1 = Except.error e) :
    (∀ i, i < ctxs.length →
      cacheKey (ctxs.getD i defaultCtx) = cacheKey ctx →
      (runResults env (stepState env initialProviderState ctx) ctxs).getD i defaultResult =
        Except.error e) ∧
    (runState env (stepState env initialProviderState ctx) ctxs).fetchCalls.count
        (cacheKey ctx) = 1 := by
  have hstored : lookupCache (stepState env initialProviderState ctx).mnemonicCache
      (cacheKey ctx) = some (Except.error e) := by
    rw [getMnemonic_result_lookup, hfail]
  constructor
  · intro i hi hkey
    have h1 := runResults_getD_final env ctxs (stepState env initialProviderState ctx) i hi
    have h2 := lookupCache_runState_mono env ctxs
      (stepState env initialProviderState ctx) (cacheKey ctx) (Except.error e) hstored
    rw [hkey, h2] at h1
    exact (Option.some.injEq _ _ ▸ h1.symm)
  · have hfetched : cacheKey ctx ∈ (stepState env initialProviderState ctx).fetchCalls := by
      unfold stepState
      rw [getMnemonic_miss env initialProviderState ctx rfl]
      exact List.mem_cons_self _ _
    have hmem := fetchCalls_runState_mem env ctxs _ _ hfetched
    have hinv := cacheInv_runState env ctxs (stepState env initialProviderState ctx)
      (cacheInv_stepState env initialProviderState ctx cacheInv_initial)
    have hle := List.nodup_iff_count_le_one.mp hinv.1 (cacheKey ctx)
    have hpos : 0 < (runState env (stepState env initialProviderState ctx) ctxs).fetchCalls.count
        (cacheKey ctx) := List.count_pos_iff.mpr hmem
    omega

/-- Environment whose fetches always fail, for the C9 witness. -/
def failingEnv : Nat → String → FetchResult :=
  fun _ _ => Except.error "store unavailable"

theorem failed_fetch_memoized_witness :
    ((getMnemonic failingEnv initialProviderState witnessCtx).1 =
        Except.error "store unavailable") ∧
    ((runResults failingEnv (stepState failingEnv initialProviderState witnessCtx)
        [witnessCtx]).getD 0 defaultResult = Except.error "store unavailable") ∧
    ((runState failingEnv (stepState failingEnv initialProviderState witnessCtx)
        [witnessCtx]).fetchCalls.count (cacheKey witnessCtx) = 1) :=
  ⟨rfl,
   (failed_fetch_memoized failingEnv [witnessCtx] witnessCtx "store unavailable" rfl).1 0
     (by decide) rfl,
   (failed_fetch_memoized failingEnv [witnessCtx] witnessCtx "store unavailable" rfl).2⟩

/-! ## JSON values and `JSON.parse`

Source: `JSON.parse(response.SecretString)` in
`AwsMnemonicProvider.getEncryptedMnemonicFromSecretsManager`
(src/unnamed/part_001).  The parser below covers the JSON subset the
provider can meet and that the claims mention: string literals without
escape sequences, `null`, and (nested) objects whose keys are such strings.
Everything outside the subset is rejected, which in particular makes a bare
mnemonic phrase a parse failure, exactly as `JSON.parse` rejects it. -/

/-- Parsed JSON document (subset: strings, null, objects). -/
inductive Json where
  | jstr (s : String)
  | jnull
  | jobj (fields : List (String × Json))

/-- Drop leading JSON whitespace. -/
def skipWs : List Char → List Char
  | [] => []
  | c :: rest =>
    if c = ' ' ∨ c = '\n' ∨ c = '\t' ∨ c = '\r' then skipWs rest else c :: rest

/-- Scan a string literal body up to the closing quote (no escapes in the
subset; a backslash rejects). -/
def scanStrBody : List Char → List Char → Option (List Char × List Char)
  | [], _ => none
  | c :: rest, acc =>
    if c = '"' then some (acc.reverse, rest)
    else if c = '\\' then none
    else scanStrBody rest (c :: acc)

mutual

/-- Parse one JSON value. -/
def parseValue (fuel : Nat) (cs : List Char) : Option (Json × List Char) :=
  match fuel with
  | 0 => none
  | fuel + 1 =>
    match skipWs cs with
    | '"' :: rest =>
      match scanStrBody rest [] with
      | some (body, rest2) => some (Json.jstr (String.mk body), rest2)
      | none => none
    | '{' :: rest => (parseFields fuel true rest).map (fun p => (Json.jobj p.1, p.2))
    | 'n' :: 'u' :: 'l' :: 'l' :: rest => some (Json.jnull, rest)
    | _ => none
termination_by structural fuel

/-- Parse the fields of an object after its opening brace; `allowEnd` permits an
immediately closing brace (true only before the first entry). -/
def parseFields (fuel : Nat) (allowEnd : Bool) (cs : List Char) :
    Option (List (String × Json) × List Char) :=
  match fuel with
  | 0 => none
  | fuel + 1 =>
    match skipWs cs with
    | '}' :: rest => if allowEnd then some ([], rest) else none
    | _ =>
      match parseEntry fuel (skipWs cs) with
      | none => none
      | some (kv, rest) =>
        match skipWs rest with
        | ',' :: rest2 =>
          match parseFields fuel false rest2 with
          | some (fs, rest3) => some (kv :: fs, rest3)
          | none => none
        | '}' :: rest2 => some ([kv], rest2)
        | _ => none
termination_by structural fuel

/-- Parse one `"key": value` entry. -/
def parseEntry (fuel : Nat) (cs : List Char) : Option ((String × Json) × List Char) :=
  match fuel with
  | 0 => none
  | fuel + 1 =>
    match cs with
    | '"' :: rest =>
      match scanStrBody rest [] with
      | none => none
      | some (key, rest2) =>
        match skipWs rest2 with
        | ':' :: rest3 =>
          match parseValue fuel rest3 with
          | none => none
          | some (v, rest4) => some ((String.mk key, v), rest4)
        | _ => none
    | _ => none
termination_by structural fuel

end

/-- `JSON.parse`: parse one value and require only trailing whitespace after it. -/
def jsonParse (s : String) : Option Json :=
  match parseValue (4 * s.data.length + 8) s.data with
  | some (v, rest) => if skipWs rest = [] then some v else none
  | none => none

/-! ## JS runtime values and the fragment of `+` the provider uses

`secret.mnemonic_share_1 + secret.mnemonic_share_2` runs on whatever
`JSON.parse` produced: property access on an object yields the field or
`undefined`, on a string yields `undefined` (for these names), on `null` it
throws a TypeError; `+` does string concatenation when either primitive
operand is a string and numeric addition otherwise, where `undefined`
coerces to NaN. -/

/-- JS runtime value (the fragment reachable here). -/
inductive JsValue where
  | vstr (s : String)
  | vnull
  | vundef
  | vnan
  | vnum (n : Int)
  | vobj (fields : List (String × Json))

/-- Last binding of a key in an object (later duplicate keys win, as in
`JSON.parse`). -/
def lookupField (fields : List (String × Json)) (k : String) : Option Json :=
  match fields with
  | [] => none
  | (k2, v) :: rest =>
    match lookupField rest k with
    | some v2 => some v2
    | none => if k2 = k then some v else none

/-- View a parsed JSON document as a JS value. -/
def jsonToJsValue : Json → JsValue
  | .jstr s => .vstr s
  | .jnull => .vnull
  | .jobj fs => .vobj fs

/-- Property access `root.f`; throws on `null`, yields `undefined` when the
property is absent. -/
def getProp (root : Json) (f : String) : Except String JsValue :=
  match root with
  | .jnull => .error "TypeError: Cannot read properties of null"
  | .jobj fs => .ok (((lookupField fs f).map jsonToJsValue).getD JsValue.vundef)
  | .jstr _ => .ok JsValue.vundef

/-- ToString on primitives (and the object fallback), as `+` uses it. -/
def jsToString : JsValue → String
  | .vstr s => s
  | .vnull => "null"
  | .vundef => "undefined"
  | .vnan => "NaN"
  | .vnum n => intRender n
  | .vobj _ => "[object Object]"

/-- ToPrimitive: objects become their default string form. -/
def toPrim (v : JsValue) : JsValue :=
  match v with
  | .vobj _ => .vstr "[object Object]"
  | x => x

/-- ToNumber on the non-string primitives reachable here (`none` is NaN). -/
def toNumber : JsValue → Option Int
  | .vstr _ => none
  | .vnull => some 0
  | .vundef => none
  | .vnan => none
  | .vnum n => some n
  | .vobj _ => none

/-- The JS `+` operator on the modelled values. -/
def jsAdd (a b : JsValue) : JsValue :=
  match toPrim a, toPrim b with
  | .vstr s, pb => .vstr (s ++ jsToString pb)
  | pa, .vstr s => .vstr (jsToString pa ++ s)
  | pa, pb =>
    match toNumber pa, toNumber pb with
    | some x, some y => .vnum (x + y)
    | _, _ => .vnan

/-! ## Secret retrieval and reconstruction

Source: `AwsMnemonicProvider.getEncryptedMnemonicFromSecretsManager`,
`decryptWithKMS` and `fetchAndDecryptMnemonic` (src/unnamed/part_001).
The Secrets Manager response and the KMS decryption are oracle functions;
errors are the thrown `Error` messages. -/

/-- The `GetSecretValueCommand` response: `SecretString` may be absent. -/
structure GetSecretValueResponse where
  SecretString : Option String

/-- Reconstruction of the stored secret.  `!response.SecretString` is JS
truthiness: both a missing and an empty `SecretString` throw; then the
payload is parsed as JSON and the two share fields are concatenated with
the JS `+` operator. -/
def getEncryptedMnemonicFromSecretsManager (store : String → GetSecretValueResponse)
    (secretName : String) : Except String JsValue :=
  match (store secretName).SecretString with
  | none => .error ("Secret value is empty for " ++ secretName)
  | some s =>
    if s = "" then .error ("Secret value is empty for " ++ secretName)
    else
      match jsonParse s with
      | none => .error "SyntaxError: Unexpected token in JSON"
      | some secret =>
        match getProp secret "mnemonic_share_1" with
        | .error e => .error e
        | .ok v1 =>
          match getProp secret "mnemonic_share_2" with
          | .error e => .error e
          | .ok v2 => .ok (jsAdd v1 v2)

/-- KMS decryption step: `Buffer.from(ciphertext, "base64")` requires a
string argument, then the KMS oracle answers. -/
def decryptWithKMS (kms : String → Except String String) (ciphertext : JsValue) :
    Except String String :=
  match ciphertext with
  | .vstr s => kms s
  | v => .error ("TypeError: first argument must be a string, got " ++ jsToString v)

/-- The fetch the provider memoizes: reconstruct, then decrypt. -/
def fetchAndDecryptMnemonic (store : String → GetSecretValueResponse)
    (kms : String → Except String String) (secretName : String) :
    Except String String :=
  match getEncryptedMnemonicFromSecretsManager store secretName with
  | .error e => .error e
  | .ok enc => decryptWithKMS kms enc

/-- C6. An empty or missing stored secret makes the fetch fail with the
distinguishable empty-secret error naming the secret, never a crash and
never a successfully returned (empty) seed phrase. -/
theorem empty_secret_unavailable (store : String → GetSecretValueResponse)
    (kms : String → Except String String) (name : String)
    (h : (store name).SecretString = none ∨ (store name).SecretString = some "") :
    fetchAndDecryptMnemonic store kms name =
      .error ("Secret value is empty for " ++ name) := by
  unfold fetchAndDecryptMnemonic getEncryptedMnemonicFromSecretsManager
  rcases h with h | h
  · simp only [h]
  · simp only [h]
    simp

theorem empty_secret_unavailable_witness :
    ((fun _ : String => GetSecretValueResponse.mk none) "org-1234_1").SecretString = none ∧
    fetchAndDecryptMnemonic (fun _ => GetSecretValueResponse.mk none)
        (fun s => Except.ok s) "org-1234_1" =
      Except.error ("Secret value is empty for " ++ "org-1234_1") :=
  ⟨rfl,
   empty_secret_unavailable (fun _ => GetSecretValueResponse.mk none)
     (fun s => Except.ok s) "org-1234_1" (Or.inl rfl)⟩

/-- C5. Whenever the stored payload parses to a JSON object whose
`mnemonic_share_1` and `mnemonic_share_2` fields are strings, the provider
reconstructs exactly their concatenation, share 1 first. -/
theorem two_share_concat (store : String → GetSecretValueResponse)
    (name s : String) (fields : List (String × Json)) (a b : String)
    (hs : (store name).SecretString = some s)
    (hne : s ≠ "")
    (hp : jsonParse s = some (Json.jobj fields))
    (h1 : lookupField fields "mnemonic_share_1" = some (Json.jstr a))
    (h2 : lookupField fields "mnemonic_share_2" = some (Json.jstr b)) :
    getEncryptedMnemonicFromSecretsManager store name = .ok (JsValue.vstr (a ++ b)) := by
  unfold getEncryptedMnemonicFromSecretsManager
  simp only [hs]
  rw [if_neg hne]
  simp [hp, getProp, h1, h2, jsonToJsValue, jsAdd, toPrim, jsToString]

/-- Fixture payload with the two share fields, for the C5 witness. -/
def sharesPayload : String :=
  "\x7b\"mnemonic_share_1\":\"test test test test test test \",\"mnemonic_share_2\":\"test test test test test junk\"\x7d"

theorem two_share_concat_witness :
    jsonParse sharesPayload =
      some (Json.jobj [("mnemonic_share_1", Json.jstr "test test test test test test "),
                       ("mnemonic_share_2", Json.jstr "test test test test test junk")]) ∧
    getEncryptedMnemonicFromSecretsManager (fun _ => GetSecretValueResponse.mk (some sharesPayload))
        "org-1234_1" =
      Except.ok (JsValue.vstr ("test test test test test test " ++ "test test test test test junk")) := by
  constructor
  · rfl
  · exact two_share_concat (fun _ => GetSecretValueResponse.mk (some sharesPayload))
      "org-1234_1" sharesPayload
      [("mnemonic_share_1", Json.jstr "test test test test test test "),
       ("mnemonic_share_2", Json.jstr "test test test test test junk")]
      "test test test test test test " "test test test test test junk"
      rfl (by decide) rfl rfl rfl

/-- Fixture raw (non-JSON) phrase payload. -/
def rawPhrasePayload : String :=
  "test test test test test test test test test test test junk"

/-- Fixture payload with a single `mnemonic` field. -/
def mnemonicFieldPayload : String :=
  "\x7b\"mnemonic\":\"test test test test test test test test test test test junk\"\x7d"

/-- Counterexample to C4: a raw phrase string stored as the secret is not
accepted — `JSON.parse` rejects it, so the provider does not return the
phrase. -/
theorem raw_phrase_not_accepted :
    getEncryptedMnemonicFromSecretsManager
        (fun _ => GetSecretValueResponse.mk (some rawPhrasePayload)) "org-1234_1" =
      Except.error "SyntaxError: Unexpected token in JSON" ∧
    getEncryptedMnemonicFromSecretsManager
        (fun _ => GetSecretValueResponse.mk (some rawPhrasePayload)) "org-1234_1" ≠
      Except.ok (JsValue.vstr rawPhrasePayload) := by
  have h : getEncryptedMnemonicFromSecretsManager
      (fun _ => GetSecretValueResponse.mk (some rawPhrasePayload)) "org-1234_1" =
      Except.error "SyntaxError: Unexpected token in JSON" := rfl
  refine ⟨h, ?_⟩
  rw [h]
  intro hc
  exact Except.noConfusion hc

/-- C4 amended: of the three external encodings the claim lists, the provider
accepts only the multi-share JSON object (concatenating the two share
fields); a raw phrase string fails JSON parsing, and an object with a single
`mnemonic` field yields NaN (`undefined + undefined`), not the phrase. -/
theorem secret_encodings_behavior :
    getEncryptedMnemonicFromSecretsManager
        (fun _ => GetSecretValueResponse.mk (some sharesPayload)) "org-1234_1" =
      Except.ok (JsValue.vstr "test test test test test test test test test test test junk") ∧
    getEncryptedMnemonicFromSecretsManager
        (fun _ => GetSecretValueResponse.mk (some rawPhrasePayload)) "org-1234_1" =
      Except.error "SyntaxError: Unexpected token in JSON" ∧
    getEncryptedMnemonicFromSecretsManager
        (fun _ => GetSecretValueResponse.mk (some mnemonicFieldPayload)) "org-1234_1" =
      Except.ok JsValue.vnan :=
  ⟨rfl, rfl, rfl⟩

/-! ## Ethereum wallet adapter

Sources: src/unnamed/part_004 (identity-resolved `EthWalletAdapter` with
structured params), src/packages/wallet-eth/dist/eth-wallet.adapter.d.ts
(compiled mnemonic+hdpath variant, which strips a leading path root before
deriving), and src/packages/wallet-eth/src/eth-wallet.adapter.ts
(`supportedCoinTypes` and the unimplemented `signTransaction`).
The ethers library (`HDNodeWallet.fromPhrase`, `derivePath`, `getAddress`,
`publicKey`) is an oracle `EthersEnv`; a derived node is summarized by its
address and public key. -/

/-- A derived HD node as the adapter observes it. -/
structure HdNode where
  address : String
  publicKey : String
deriving DecidableEq

/-- Oracle for the ethers HD wallet operations; `Root` is the abstract type
of the wallet returned by `HDNodeWallet.fromPhrase`. -/
structure EthersEnv (Root : Type) where
  fromPhrase : String → Except String Root
  derivePath : Root → String → Except String HdNode

/-- Structured address-generation parameters (src/unnamed/part_002;
`coinType`, `accountId`, `change`, `index` are non-negative JS integers). -/
structure GenerateAddressParams where
  organizationId : String
  chainId : Int
  coinType : Nat
  accountId : Nat
  change : Nat
  index : Nat
deriving DecidableEq

/-- Result record of `generateAddress`; `publicKey` and `path` are optional
fields of the TS interface. -/
structure GeneratedAddress where
  address : String
  publicKey : Option String
  path : Option String
deriving DecidableEq

/-- A single apostrophe, the hardening mark in derivation paths. -/
def apos : String := String.mk [Char.ofNat 39]

/-- The structured-params `generateAddress` (src/unnamed/part_004 lines
15-45): resolve the mnemonic through the provider, build the root wallet,
build the hardened BIP44 path with a template literal, derive, and return
address, public key and path. -/
def EthWalletAdapter.generateAddress {Root : Type} (ethers : EthersEnv Root)
    (mnemonicProvider : MnemonicContext → Except String String)
    (params : GenerateAddressParams) : Except String GeneratedAddress :=
  match mnemonicProvider ⟨params.organizationId, params.chainId⟩ with
  | .error e => .error e
  | .ok mnemonic =>
    match ethers.fromPhrase mnemonic with
    | .error e => .error e
    | .ok root =>
      match ethers.derivePath root
          ("m/44" ++ apos ++ "/" ++ natRender params.coinType ++ apos ++ "/" ++
            natRender params.accountId ++ apos ++ "/" ++ natRender params.change ++
            "/" ++ natRender params.index) with
      | .error e => .error e
      | .ok node =>
        .ok ⟨node.address, some node.publicKey,
          some ("m/44" ++ apos ++ "/" ++ natRender params.coinType ++ apos ++ "/" ++
            natRender params.accountId ++ apos ++ "/" ++ natRender params.change ++
            "/" ++ natRender params.index)⟩

/-- Modelled from the spec: the canonical persisted path wire format of §6,
`m/44` then apostrophe, the coin type then apostrophe, the account then
apostrophe, then the unhardened change and index segments. -/
def specCanonicalPath (coinType accountId change index : Nat) : String :=
  "m/44" ++ apos ++ "/" ++ natRender coinType ++ apos ++ "/" ++
    natRender accountId ++ apos ++ "/" ++ natRender change ++ "/" ++ natRender index

/-- C2. Every successful structured `generateAddress` reports exactly the
canonical hardened path built from (coinType, accountId, change, index) —
a pure function of those four fields, hence reproducible byte-for-byte. -/
theorem generateAddress_path_canonical {Root : Type} (ethers : EthersEnv Root)
    (mnemonicProvider : MnemonicContext → Except String String)
    (params : GenerateAddressParams) (r : GeneratedAddress)
    (h : EthWalletAdapter.generateAddress ethers mnemonicProvider params = .ok r) :
    r.path = some (specCanonicalPath params.coinType params.accountId
      params.change params.index) := by
  unfold EthWalletAdapter.generateAddress at h
  cases hm : mnemonicProvider ⟨params.organizationId, params.chainId⟩ with
  | error e =>
    simp only [hm] at h
    exact Except.noConfusion h
  | ok mnemonic =>
    simp only [hm] at h
    cases hr : ethers.fromPhrase mnemonic with
    | error e =>
      simp only [hr] at h
      exact Except.noConfusion h
    | ok root =>
      simp only [hr] at h
      cases hd : ethers.derivePath root
          ("m/44" ++ apos ++ "/" ++ natRender params.coinType ++ apos ++ "/" ++
            natRender params.accountId ++ apos ++ "/" ++ natRender params.change ++
            "/" ++ natRender params.index) with
      | error e =>
        simp only [hd] at h
        exact Except.noConfusion h
      | ok node =>
        simp only [hd] at h
        cases h
        rfl

/-- Concrete ethers oracle for adapter witnesses: derivation succeeds and
records the path it was given. -/
def witnessEthers : EthersEnv Unit :=
  ⟨fun _ => Except.ok (), fun _ p => Except.ok ⟨"0x" ++ p, "0x04aa"⟩⟩

/-- Concrete structured params for the C2 witness. -/
def witnessParams : GenerateAddressParams := ⟨"org-1234", 1, 60, 0, 0, 0⟩

theorem generateAddress_path_canonical_witness :
    EthWalletAdapter.generateAddress witnessEthers (fun _ => Except.ok "seed")
        witnessParams =
      Except.ok ⟨"0x" ++ specCanonicalPath 60 0 0 0, some "0x04aa",
        some (specCanonicalPath 60 0 0 0)⟩ ∧
    (⟨"0x" ++ specCanonicalPath 60 0 0 0, some "0x04aa",
        some (specCanonicalPath 60 0 0 0)⟩ : GeneratedAddress).path =
      some (specCanonicalPath 60 0 0 0) :=
  ⟨rfl,
   generateAddress_path_canonical witnessEthers (fun _ => Except.ok "seed")
     witnessParams _ rfl⟩

/-- Params of the compiled mnemonic+hdpath adapter variant
(src/packages/wallet-types/dist/types.d.ts). -/
structure HdPathParams where
  mnemonic : String
  hdpath : String
deriving DecidableEq

/-- Result record of the mnemonic+hdpath variant. -/
structure GeneratedAddressHd where
  address : String
  publicKey : String
deriving DecidableEq

/-- The check `hdpath.startsWith` applied to the two-character root marker
(the letter m then a slash), embedded as a pattern match on the first two
characters. -/
def startsWithMSlash (s : String) : Bool :=
  match s.data with
  | 'm' :: '/' :: _ => true
  | _ => false

/-- The conditional `slice(2)` of the compiled adapter: drop the root marker
when present. -/
def stripLeadingMSlash (s : String) : String :=
  if startsWithMSlash s then String.mk (s.data.drop 2) else s

/-- The compiled hdpath `generateAddress`
(src/packages/wallet-eth/dist/eth-wallet.adapter.d.ts): build the root
wallet from the supplied mnemonic, normalize the supplied path by stripping
a leading root marker, derive, and return address and public key. -/
def EthWalletAdapterDist.generateAddress {Root : Type} (ethers : EthersEnv Root)
    (params : HdPathParams) : Except String GeneratedAddressHd :=
  match ethers.fromPhrase params.mnemonic with
  | .error e => .error e
  | .ok root =>
    match ethers.derivePath root (stripLeadingMSlash params.hdpath) with
    | .error e => .error e
    | .ok node => .ok ⟨node.address, node.publicKey⟩

theorem startsWithMSlash_append (p : String) :
    startsWithMSlash ("m/" ++ p) = true := by
  unfold startsWithMSlash
  rw [data_append]
  rfl

theorem stripLeadingMSlash_append (p : String) :
    stripLeadingMSlash ("m/" ++ p) = p := by
  unfold stripLeadingMSlash
  rw [startsWithMSlash_append, if_pos rfl, data_append]
  exact string_eq_of_data rfl

/-- C3. For every mnemonic and every already-relative path p, the compiled
adapter derives the same address and public key whether the caller passes p
or the rooted form with the leading marker: the deriver normalizes by
stripping it. -/
theorem generateAddress_strips_leading_m {Root : Type} (ethers : EthersEnv Root)
    (m p : String) (h : startsWithMSlash p = false) :
    EthWalletAdapterDist.generateAddress ethers ⟨m, "m/" ++ p⟩ =
      EthWalletAdapterDist.generateAddress ethers ⟨m, p⟩ := by
  unfold EthWalletAdapterDist.generateAddress
  rw [show stripLeadingMSlash ("m/" ++ p) = p from stripLeadingMSlash_append p]
  rw [show stripLeadingMSlash p = p from by unfold stripLeadingMSlash; rw [h]; rfl]

theorem generateAddress_strips_leading_m_witness :
    startsWithMSlash "x/60/0/0/1" = false ∧
    EthWalletAdapterDist.generateAddress witnessEthers ⟨"seed", "m/" ++ "x/60/0/0/1"⟩ =
      EthWalletAdapterDist.generateAddress witnessEthers ⟨"seed", "x/60/0/0/1"⟩ :=
  ⟨rfl, generateAddress_strips_leading_m witnessEthers "seed" "x/60/0/0/1" rfl⟩

/-! ## Transaction signing

Source: src/packages/wallet-eth/src/eth-wallet.adapter.ts.  The adapter
declares `supportedCoinTypes = [60]` and `signTransaction` throws
unconditionally.  Error kinds follow the taxonomy the spec assigns to the
adapter surface: `notImplemented` records the message the source throws;
`unsupportedCoinType` is the routing kind the spec names for a coin-type
mismatch (the source never raises it). -/

/-- Unsigned transaction (src/unnamed/part_002); the TS `coinType` / `rawTx`
are runtime JS values, modelled as a number and an opaque payload string. -/
structure UnsignedTx where
  organizationId : String
  chainId : Int
  coinType : Nat
  rawTx : String
deriving DecidableEq

/-- Signed transaction record (src/unnamed/part_002). -/
structure SignedTx where
  organizationId : String
  chainId : Int
  coinType : Nat
  signedRawTx : String
  txHash : Option String
deriving DecidableEq

/-- Failure kinds of the Ethereum adapter surface. -/
inductive EthError where
  | notImplemented (msg : String)
  | unsupportedCoinType (coinType : Nat)
deriving DecidableEq

/-- The declared `supportedCoinTypes` field of `EthWalletAdapter`. -/
def supportedCoinTypes : List Nat := [60]

/-- `EthWalletAdapter.signTransaction`: throws its not-implemented error for
every input. -/
def EthWalletAdapter.signTransaction (tx : UnsignedTx) : Except EthError SignedTx :=
  .error (.notImplemented "EthWalletAdapter.signTransaction is not implemented yet.")

/-- C7. For every unsigned transaction, `signTransaction` fails loudly with
the not-implemented error: it never returns a `SignedTx` and never silently
no-ops. -/
theorem signTransaction_fails_not_implemented (tx : UnsignedTx) :
    EthWalletAdapter.signTransaction tx =
      Except.error (EthError.notImplemented
        "EthWalletAdapter.signTransaction is not implemented yet.") :=
  rfl

/-- Discriminator: did a signing outcome fail specifically with the
`unsupportedCoinType` kind? -/
def failsWithUnsupportedCoinType : Except EthError SignedTx → Bool
  | .error (.unsupportedCoinType _) => true
  | _ => false

/-- Counterexample to C8: a transaction whose coinType 61 is outside
`supportedCoinTypes` does not fail with an `unsupportedCoinType` error —
the failure is the not-implemented one. -/
theorem unsupported_coin_type_counterexample :
    (61 ∈ supportedCoinTypes) = False ∧
    failsWithUnsupportedCoinType
        (EthWalletAdapter.signTransaction ⟨"org-1234", 1, 61, "payload"⟩) = false ∧
    EthWalletAdapter.signTransaction ⟨"org-1234", 1, 61, "payload"⟩ =
      Except.error (EthError.notImplemented
        "EthWalletAdapter.signTransaction is not implemented yet.") := by
  refine ⟨?_, rfl, rfl⟩
  simp [supportedCoinTypes]

/-- C8 amended: while the signer is unimplemented, a transaction whose
coinType is outside the adapter's supported set does fail, but with the
not-implemented error, not with an `unsupportedCoinType` one — that check
is not yet wired up. -/
theorem signTransaction_unsupported_still_fails (tx : UnsignedTx)
    (h : tx.coinType ∉ supportedCoinTypes) :
    EthWalletAdapter.signTransaction tx =
      Except.error (EthError.notImplemented
        "EthWalletAdapter.signTransaction is not implemented yet.") ∧
    failsWithUnsupportedCoinType (EthWalletAdapter.signTransaction tx) = false :=
  ⟨rfl, rfl⟩

theorem signTransaction_unsupported_still_fails_witness :
    (61 : Nat) ∉ supportedCoinTypes ∧
    (EthWalletAdapter.signTransaction ⟨"org-1234", 1, 61, "payload"⟩ =
      Except.error (EthError.notImplemented
        "EthWalletAdapter.signTransaction is not implemented yet.") ∧
    failsWithUnsupportedCoinType
        (EthWalletAdapter.signTransaction ⟨"org-1234", 1, 61, "payload"⟩) = false) :=
  ⟨by decide,
   signTransaction_unsupported_still_fails ⟨"org-1234", 1, 61, "payload"⟩ (by decide)⟩

end WalletAdaptor
